import Mathlib

/-!
Shallow embedding of the TurboShells core (turboshells-core), a Rust library
for a turtle-racing game with a genetics engine.  Machine floats (`f32`) are
modelled by exact rationals `ℚ`; `u8`/`usize` casts are modelled by their
documented Rust semantics (truncation toward zero with saturation); a Rust
panic is modelled by `Option.none`.  Ambient randomness (`rand::thread_rng`)
is modelled by explicit oracle parameters supplying the outcome of each draw,
so that theorems quantify over every possible outcome of the random draws.

Simulation side: src/simulation/{terrain.rs, turtle.rs, race.rs}.
Genetics side: src/genetics/{genes.rs, inheritance.rs, mutation.rs},
src/types.rs.
-/

/-- Stats of a turtle, from `TurtleStats` in src/types.rs. -/
structure TurtleStats where
  speed : ℚ
  max_energy : ℚ
  recovery : ℚ
  swim : ℚ
  climb : ℚ
  stamina : ℚ
  luck : ℚ
deriving DecidableEq

/-- Terrain kinds, from `TerrainType` in src/simulation/terrain.rs. -/
inductive TerrainType where
  | Normal
  | Water
  | Rocks
  | Sand
  | Mud
  | Boost
deriving DecidableEq

/-- A terrain segment, from `Terrain` in src/simulation/terrain.rs. -/
structure Terrain where
  terrain_type : TerrainType
  speed_modifier : ℚ
  energy_drain : ℚ
deriving DecidableEq

def Terrain.normal : Terrain := ⟨TerrainType.Normal, 1.0, 1.0⟩

def Terrain.water : Terrain := ⟨TerrainType.Water, 0.7, 1.2⟩

def Terrain.rocks : Terrain := ⟨TerrainType.Rocks, 0.6, 1.3⟩

def Terrain.sand : Terrain := ⟨TerrainType.Sand, 0.8, 1.1⟩

def Terrain.mud : Terrain := ⟨TerrainType.Mud, 0.5, 1.5⟩

def Terrain.boost : Terrain := ⟨TerrainType.Boost, 1.5, 0.8⟩

/-- One segment draw of `Terrain::generate_track`: the body of the closure
mapped over `0..num_segments`, with `roll` the value drawn by `rng.gen()`. -/
def Terrain.roll_terrain (roll : ℚ) : Terrain :=
  if roll < 0.6 then Terrain.normal
  else if roll < 0.75 then Terrain.water
  else if roll < 0.85 then Terrain.rocks
  else if roll < 0.93 then Terrain.sand
  else if roll < 0.97 then Terrain.mud
  else Terrain.boost

/-- `Terrain::generate_track` from src/simulation/terrain.rs.  The number of
segments is `(length / segment_size).ceil() as usize`; the Rust float-to-usize
cast truncates toward zero and saturates at 0, which on the integer value
`ceil` equals `Int.toNat`.  `rolls` is the oracle giving the uniform draw of
each segment. -/
def Terrain.generate_track (length segment_size : ℚ) (rolls : ℕ → ℚ) : List Terrain :=
  let num_segments := (⌈length / segment_size⌉).toNat
  (List.range num_segments).map (fun i => Terrain.roll_terrain (rolls i))

/-- Physics constant `TERRAIN_DIFFICULTY` from src/simulation/turtle.rs. -/
def TERRAIN_DIFFICULTY : ℚ := 0.8

/-- Physics constant `RECOVERY_RATE` from src/simulation/turtle.rs. -/
def RECOVERY_RATE : ℚ := 0.1

/-- Physics constant `RECOVERY_THRESHOLD` from src/simulation/turtle.rs. -/
def RECOVERY_THRESHOLD : ℚ := 0.5

/-- A racing turtle, from `Turtle` in src/simulation/turtle.rs. -/
structure Turtle where
  id : String
  name : String
  stats : TurtleStats
  current_energy : ℚ
  race_distance : ℚ
  is_resting : Bool
  finished : Bool
deriving DecidableEq

/-- `Turtle::reset_for_race` from src/simulation/turtle.rs. -/
def Turtle.reset_for_race (t : Turtle) : Turtle :=
  { t with
    current_energy := t.stats.max_energy
    race_distance := 0
    is_resting := false
    finished := false }

/-- `Turtle::update_physics` from src/simulation/turtle.rs.  Returns the
updated turtle together with the distance moved this tick. -/
def Turtle.update_physics (t : Turtle) (terrain : Terrain) : Turtle × ℚ :=
  if t.finished then (t, 0)
  else if t.is_resting then
    let stamina_bonus := t.stats.stamina / 20
    let recovery_rate := RECOVERY_RATE * (1 + stamina_bonus)
    let e := t.current_energy + t.stats.recovery * recovery_rate
    if e ≥ t.stats.max_energy * RECOVERY_THRESHOLD then
      ({ t with current_energy := e, is_resting := false }, 0)
    else
      ({ t with current_energy := e }, 0)
  else
    let move_speed := t.stats.speed *
      (match terrain.terrain_type with
        | TerrainType.Water => (t.stats.swim / 10) * terrain.speed_modifier
        | TerrainType.Rocks => (t.stats.climb / 10) * terrain.speed_modifier
        | TerrainType.Sand => (1 + t.stats.recovery / 15) * terrain.speed_modifier
        | TerrainType.Mud => (t.current_energy / t.stats.max_energy) * terrain.speed_modifier
        | TerrainType.Boost => terrain.speed_modifier * 1.2
        | TerrainType.Normal => terrain.speed_modifier)
    let base_drain := 0.5 * TERRAIN_DIFFICULTY
    let actual_drain := base_drain * terrain.energy_drain
    let e := t.current_energy - actual_drain
    if e ≤ 0 then
      ({ t with current_energy := 0, is_resting := true }, move_speed)
    else
      ({ t with current_energy := e }, move_speed)

/-- Constant `SEGMENT_SIZE` from src/simulation/race.rs. -/
def SEGMENT_SIZE : ℚ := 50.0

/-- Constant `MAX_TICKS` from src/simulation/race.rs. -/
def MAX_TICKS : ℕ := 5000

/-- The race manager, from `Race` in src/simulation/race.rs. -/
structure Race where
  track : List Terrain
  turtles : List Turtle
  track_length : ℚ
  tick_count : ℕ
deriving DecidableEq

/-- `Race::new` from src/simulation/race.rs; `rolls` is the oracle consumed by
`Terrain::generate_track`. -/
def Race.new (track_length : ℚ) (rolls : ℕ → ℚ) : Race :=
  { track := Terrain.generate_track track_length SEGMENT_SIZE rolls
    turtles := []
    track_length := track_length
    tick_count := 0 }

/-- `Race::add_turtle` from src/simulation/race.rs. -/
def Race.add_turtle (r : Race) (t : Turtle) : Race :=
  { r with turtles := r.turtles ++ [t] }

/-- `Race::get_terrain_at` from src/simulation/race.rs.  The Rust code indexes
`self.track[segment_idx.min(self.track.len() - 1)]`; on an empty track
`len() - 1` underflows and the indexing panics, modelled by `none`.  The
float-to-usize cast of `distance / SEGMENT_SIZE` truncates toward zero and
saturates at 0, which equals `Int.toNat ∘ Int.floor` on every input the cast
accepts. -/
def Race.get_terrain_at (r : Race) (distance : ℚ) : Option Terrain :=
  match r.track with
  | [] => none
  | a :: l =>
    let segment_idx := (⌊distance / SEGMENT_SIZE⌋).toNat
    some ((a :: l).get ⟨min segment_idx l.length, by
      simp [Nat.lt_succ_iff, min_le_right]⟩)

/-- The `collect` of per-turtle terrains at the start of `Race::tick`
(src/simulation/race.rs): terrain is looked up for every turtle, including
finished ones, and a lookup panic (`none`) aborts the tick. -/
def collectTerrains (r : Race) : List Turtle → Option (List Terrain)
  | [] => some []
  | t :: ts =>
    match r.get_terrain_at t.race_distance with
    | none => none
    | some terrain =>
      match collectTerrains r ts with
      | none => none
      | some rest => some (terrain :: rest)

/-- The body of the per-turtle update loop in `Race::tick` for a non-finished
turtle: run the physics update, add the returned movement to `race_distance`,
and mark the turtle finished once `race_distance ≥ track_length`. -/
def tickTurtle (track_length : ℚ) (t : Turtle) (terrain : Terrain) : Turtle :=
  let u := t.update_physics terrain
  let t2 := { u.1 with race_distance := u.1.race_distance + u.2 }
  if t2.race_distance ≥ track_length then { t2 with finished := true } else t2

/-- The update loop of `Race::tick` over `turtles.iter_mut().zip(terrains)`:
finished turtles are skipped (`continue`), the rest are updated by
`tickTurtle`.  Like `zip`, the recursion stops at the shorter list. -/
def updateTurtles (track_length : ℚ) : List Turtle → List Terrain → List Turtle
  | [], _ => []
  | _ :: _, [] => []
  | t :: ts, terrain :: rest =>
    (if t.finished then t else tickTurtle track_length t terrain)
      :: updateTurtles track_length ts rest

/-- `Race::tick` from src/simulation/race.rs.  Returns `none` when the terrain
lookup panics, otherwise the updated race and the "race over" flag: some
turtle finished, or the tick counter reached `MAX_TICKS`. -/
def Race.tick (r : Race) : Option (Race × Bool) :=
  match collectTerrains { r with tick_count := r.tick_count + 1 } r.turtles with
  | none => none
  | some terrains =>
    let turtles := updateTurtles r.track_length r.turtles terrains
    some ({ r with tick_count := r.tick_count + 1, turtles := turtles },
      turtles.any (fun t => t.finished) || decide (r.tick_count + 1 ≥ MAX_TICKS))

/-- The loop `while !self.tick() {}` of `Race::run`.  Termination: each tick
increments `tick_count`, and `tick` reports the race over as soon as
`tick_count` reaches `MAX_TICKS`. -/
def Race.runLoop (r : Race) : Option Race :=
  match h : r.tick with
  | none => none
  | some (r2, true) => some r2
  | some (r2, false) => r2.runLoop
termination_by MAX_TICKS + 1 - r.tick_count
decreasing_by
  simp only [Race.tick] at h
  rcases hter : collectTerrains { r with tick_count := r.tick_count + 1 } r.turtles with _ | terrains
  · rw [hter] at h; exact absurd h (by simp)
  · rw [hter] at h
    simp only [Option.some.injEq, Prod.mk.injEq] at h
    obtain ⟨h1, h2⟩ := h
    have hc : r.tick_count + 1 < MAX_TICKS := by
      rcases Bool.or_eq_false_iff.mp h2 with ⟨_, hd⟩
      have := of_decide_eq_false hd
      omega
    have ht : r2.tick_count = r.tick_count + 1 := by
      rw [← h1]
    omega

/-- The winner selection of `Race::run`: Rust `Iterator::max_by`, which keeps
the accumulator only when it compares strictly greater, hence returns the
LAST element among equal maxima. -/
def maxByLast (l : List Turtle) : Option Turtle :=
  l.foldl
    (fun acc t =>
      match acc with
      | none => some t
      | some a => if a.race_distance > t.race_distance then some a else some t)
    none

/-- Modelled from the spec: selection of the character with the greatest
`race_distance`, ties broken by FIRST occurrence in roster order, as the
spec describes the winner of `run()`.  Kept for comparison with the source
function `maxByLast`. -/
def firstMaxByDistance (l : List Turtle) : Option Turtle :=
  l.foldl
    (fun acc t =>
      match acc with
      | none => some t
      | some a => if t.race_distance > a.race_distance then some t else some a)
    none

/-- `Race::run` from src/simulation/race.rs: reset every turtle and the tick
counter, loop `tick` until the race is over, then return the winner name
(`"DRAW"` for an empty roster) together with the final race state.  A panic
inside the loop is `none`. -/
def Race.run (r : Race) : Option (String × Race) :=
  (Race.runLoop { r with turtles := r.turtles.map Turtle.reset_for_race, tick_count := 0 }).map
    (fun r2 => (((maxByLast r2.turtles).map Turtle.name).getD "DRAW", r2))

/-- Insertion step of the stable descending sort used by
`Race::get_positions`: an element is inserted before the first entry whose
distance is less than or equal to its own, so earlier roster entries stay
ahead of equal-distance later ones. -/
def insertPos (x : String × ℚ) : List (String × ℚ) → List (String × ℚ)
  | [] => [x]
  | y :: ys => if y.2 ≤ x.2 then x :: y :: ys else y :: insertPos x ys

/-- The stable sort `positions.sort_by(|a, b| b.1.partial_cmp(&a.1).unwrap())`
of `Race::get_positions`: Rust `sort_by` is a stable sort, and this insertion
sort produces the unique stable descending-by-distance ordering. -/
def sortPositions : List (String × ℚ) → List (String × ℚ)
  | [] => []
  | x :: xs => insertPos x (sortPositions xs)

/-- `Race::get_positions` from src/simulation/race.rs. -/
def Race.get_positions (r : Race) : List (String × ℚ) :=
  sortPositions (r.turtles.map (fun t => (t.name, t.race_distance)))

/-- RGB color from src/types.rs.  Rust stores each channel as `u8`; channels
are modelled as `ℕ`, with the 0–255 bound carried by validity predicates. -/
structure Rgb where
  r : ℕ
  g : ℕ
  b : ℕ
deriving DecidableEq

/-- The Rust `f32 as u8` cast: truncation toward zero saturating to
`[0, 255]`.  For a nonnegative rational, truncation is the floor. -/
def ratToU8 (q : ℚ) : ℕ :=
  if q < 0 then 0 else min (⌊q⌋).toNat 255

/-- `Rgb::blend` from src/types.rs: linear interpolation channel by channel
with the bias clamped to `[0, 1]`, each channel cast back with `as u8`.  This
is the exact-real-arithmetic reading of the formula; `Rgb.blend32` below
models the same computation with the source's `f32` roundings, under which
the truncating cast can drop a channel by one. -/
def Rgb.blend (c1 c2 : Rgb) (bias : ℚ) : Rgb :=
  let b := min (max bias 0) 1
  { r := ratToU8 ((c1.r : ℚ) * (1 - b) + (c2.r : ℚ) * b)
    g := ratToU8 ((c1.g : ℚ) * (1 - b) + (c2.g : ℚ) * b)
    b := ratToU8 ((c1.b : ℚ) * (1 - b) + (c2.b : ℚ) * b) }

/-- Round a rational to the nearest integer, halves to the even neighbor
(the rounding of IEEE-754 round-to-nearest-even expressed on the scaled
significand). -/
def roundHalfEven (q : ℚ) : ℤ :=
  if q - ⌊q⌋ < 1/2 then ⌊q⌋
  else if 1/2 < q - ⌊q⌋ then ⌊q⌋ + 1
  else if ⌊q⌋ % 2 = 0 then ⌊q⌋ else ⌊q⌋ + 1

/-- IEEE-754 binary32 round-to-nearest-even on exact rationals, for values in
the normal, non-overflowing range (every value arising in `Rgb::blend` is
such): the 24-bit significand makes the unit in the last place `2 ^ (e - 23)`
where `2 ^ e ≤ |q| < 2 ^ (e + 1)`. -/
def roundF32 (q : ℚ) : ℚ :=
  if q = 0 then 0
  else roundHalfEven (q / 2 ^ (Int.log 2 |q| - 23)) * 2 ^ (Int.log 2 |q| - 23)

/-- `Rgb::blend` as the source actually computes it in `f32`: the bias clamp
and the `u8`-to-`f32` casts are exact, and every arithmetic operation
(`1.0 - bias`, each product, the sum) rounds to binary32 before the
truncating `as u8` cast. -/
def Rgb.blend32 (c1 c2 : Rgb) (bias : ℚ) : Rgb :=
  { r := ratToU8 (roundF32 (roundF32 ((c1.r : ℚ) * roundF32 (1 - min (max bias 0) 1))
      + roundF32 ((c2.r : ℚ) * min (max bias 0) 1)))
    g := ratToU8 (roundF32 (roundF32 ((c1.g : ℚ) * roundF32 (1 - min (max bias 0) 1))
      + roundF32 ((c2.g : ℚ) * min (max bias 0) 1)))
    b := ratToU8 (roundF32 (roundF32 ((c1.b : ℚ) * roundF32 (1 - min (max bias 0) 1))
      + roundF32 ((c2.b : ℚ) * min (max bias 0) 1))) }

/-- Squared Euclidean distance between two colors (the radicand computed by
`Rgb::distance` in src/types.rs). -/
def Rgb.dist2 (c1 c2 : Rgb) : ℚ :=
  ((c1.r : ℚ) - (c2.r : ℚ)) * ((c1.r : ℚ) - (c2.r : ℚ))
    + ((c1.g : ℚ) - (c2.g : ℚ)) * ((c1.g : ℚ) - (c2.g : ℚ))
    + ((c1.b : ℚ) - (c2.b : ℚ)) * ((c1.b : ℚ) - (c2.b : ℚ))

/-- `Rgb::distance` from src/types.rs: Euclidean distance between colors. -/
noncomputable def Rgb.distance (c1 c2 : Rgb) : ℝ :=
  Real.sqrt ((Rgb.dist2 c1 c2 : ℚ) : ℝ)

/-- Gene values, from `GeneValue` in src/types.rs. -/
inductive GeneValue where
  | Rgb (c : Rgb)
  | Discrete (s : String)
  | Continuous (f : ℚ)
deriving DecidableEq

/-- A gene definition, from `GeneDefinition` in src/genetics/genes.rs. -/
structure GeneDefinition where
  gene_type : String
  default : GeneValue
  description : String
  discrete_options : Option (List String)
  continuous_range : Option (ℚ × ℚ)
deriving DecidableEq

/-- `GeneDefinition::rgb` from src/genetics/genes.rs. -/
def GeneDefinition.rgb (default : Rgb) (description : String) : GeneDefinition :=
  { gene_type := "rgb"
    default := GeneValue.Rgb default
    description := description
    discrete_options := none
    continuous_range := none }

/-- `GeneDefinition::discrete` from src/genetics/genes.rs. -/
def GeneDefinition.discrete (options : List String) (default : String)
    (description : String) : GeneDefinition :=
  { gene_type := "discrete"
    default := GeneValue.Discrete default
    description := description
    discrete_options := some options
    continuous_range := none }

/-- `GeneDefinition.continuous` from src/genetics/genes.rs. -/
def GeneDefinition.continuous (range : ℚ × ℚ) (default : ℚ)
    (description : String) : GeneDefinition :=
  { gene_type := "continuous"
    default := GeneValue.Continuous default
    description := description
    discrete_options := none
    continuous_range := some range }

/-- The registry built by `GeneDefinitions::new` in src/genetics/genes.rs,
as an association list (the Rust `HashMap` has unique keys and an arbitrary
iteration order; every claim proved below is independent of the order). -/
def geneDefinitionsNew : List (String × GeneDefinition) :=
  [("shell_base_color", GeneDefinition.rgb ⟨34, 139, 34⟩ "Primary shell color"),
   ("shell_pattern_type", GeneDefinition.discrete ["hex", "spots", "stripes", "rings"] "hex" "Shell pattern type"),
   ("shell_pattern_color", GeneDefinition.rgb ⟨255, 255, 255⟩ "Shell pattern color"),
   ("pattern_color", GeneDefinition.rgb ⟨255, 255, 255⟩ "Pattern color (renderer alias)"),
   ("shell_pattern_density", GeneDefinition.continuous (0.1, 1.0) 0.5 "Pattern density/intensity"),
   ("shell_pattern_opacity", GeneDefinition.continuous (0.3, 1.0) 0.8 "Pattern transparency"),
   ("shell_size_modifier", GeneDefinition.continuous (0.5, 1.5) 1.0 "Shell size scaling"),
   ("body_base_color", GeneDefinition.rgb ⟨107, 142, 35⟩ "Primary body color"),
   ("body_pattern_type", GeneDefinition.discrete ["solid", "mottled", "speckled", "marbled"] "solid" "Body pattern type"),
   ("body_pattern_color", GeneDefinition.rgb ⟨85, 107, 47⟩ "Body pattern color"),
   ("body_pattern_density", GeneDefinition.continuous (0.1, 1.0) 0.3 "Body pattern density"),
   ("head_size_modifier", GeneDefinition.continuous (0.7, 1.3) 1.0 "Head size scaling"),
   ("head_color", GeneDefinition.rgb ⟨139, 90, 43⟩ "Head color"),
   ("leg_length", GeneDefinition.continuous (0.5, 1.5) 1.0 "Leg length scaling"),
   ("limb_shape", GeneDefinition.discrete ["flippers", "feet", "fins"] "flippers" "Limb shape type"),
   ("leg_thickness_modifier", GeneDefinition.continuous (0.7, 1.3) 1.0 "Leg thickness"),
   ("leg_color", GeneDefinition.rgb ⟨101, 67, 33⟩ "Leg color"),
   ("eye_color", GeneDefinition.rgb ⟨0, 0, 0⟩ "Eye color"),
   ("eye_size_modifier", GeneDefinition.continuous (0.8, 1.2) 1.0 "Eye size scaling")]

/-- A trait map (`HashMap<String, GeneValue>`) modelled extensionally as a
partial function from gene names to values. -/
def TraitFun : Type := String → Option GeneValue

/-- `Inheritance::inherit` from src/genetics/inheritance.rs, as the resulting
trait map: one entry per registered gene.  `choose` is the oracle for the
`rng.gen_bool(0.5)` draw of each gene (`true` picks parent 1). -/
def inherit (defs : List (String × GeneDefinition)) (p1 p2 : TraitFun)
    (choose : String → Bool) : TraitFun :=
  fun name =>
    match defs.lookup name with
    | none => none
    | some d =>
      match p1 name, p2 name with
      | some v1, some v2 => some (if choose name then v1 else v2)
      | some v, none => some v
      | none, some v => some v
      | none, none => some d.default

/-- `Inheritance::inherit_blended` from src/genetics/inheritance.rs.  The
match mirrors the Rust arm order: RGB blend when both parents supply RGB
values and the gene kind is "rgb"; arithmetic mean for two continuous values
of a "continuous" gene; 50/50 pick for a "discrete" gene; one-missing copies;
anything else falls back to the definition default.  `bias` is the oracle for
`rng.gen_range(0.3..0.7)` and `choose` for `rng.gen_bool(0.5)`. -/
def inherit_blended (defs : List (String × GeneDefinition)) (p1 p2 : TraitFun)
    (choose : String → Bool) (bias : String → ℚ) : TraitFun :=
  fun name =>
    match defs.lookup name with
    | none => none
    | some d =>
      some (match p1 name, p2 name with
        | some v1, some v2 =>
          if d.gene_type = "rgb" then
            match v1, v2 with
            | GeneValue.Rgb c1, GeneValue.Rgb c2 => GeneValue.Rgb (Rgb.blend c1 c2 (bias name))
            | _, _ => d.default
          else if d.gene_type = "continuous" then
            match v1, v2 with
            | GeneValue.Continuous f1, GeneValue.Continuous f2 =>
              GeneValue.Continuous ((f1 + f2) / 2)
            | _, _ => d.default
          else if d.gene_type = "discrete" then
            if choose name then v1 else v2
          else d.default
        | some v, none => v
        | none, some v => v
        | none, none => d.default)

/-- `Inheritance::inherit_blended` as the source computes it in `f32`: the
same arm structure as `inherit_blended`, with the RGB blend and the
continuous mean evaluated under binary32 rounding (`(f1 + f2) / 2.0` rounds
the sum and the halving). -/
def inherit_blended32 (defs : List (String × GeneDefinition)) (p1 p2 : TraitFun)
    (choose : String → Bool) (bias : String → ℚ) : TraitFun :=
  fun name =>
    match defs.lookup name with
    | none => none
    | some d =>
      some (match p1 name, p2 name with
        | some v1, some v2 =>
          if d.gene_type = "rgb" then
            match v1, v2 with
            | GeneValue.Rgb c1, GeneValue.Rgb c2 =>
              GeneValue.Rgb (Rgb.blend32 c1 c2 (bias name))
            | _, _ => d.default
          else if d.gene_type = "continuous" then
            match v1, v2 with
            | GeneValue.Continuous f1, GeneValue.Continuous f2 =>
              GeneValue.Continuous (roundF32 (roundF32 (f1 + f2) / 2))
            | _, _ => d.default
          else if d.gene_type = "discrete" then
            if choose name then v1 else v2
          else d.default
        | some v, none => v
        | none, some v => v
        | none, none => d.default)

/-- Contribution of one registered gene to the similarity numerator in
`Inheritance::calculate_similarity`: a comparable same-kind pair contributes
its kind-specific score, everything else contributes 0. -/
noncomputable def geneSimilarity (d : GeneDefinition) (v1 v2 : Option GeneValue) : ℝ :=
  if d.gene_type = "rgb" then
    match v1, v2 with
    | some (GeneValue.Rgb c1), some (GeneValue.Rgb c2) =>
      1 - Rgb.distance c1 c2 / Real.sqrt ((255 : ℝ) ^ 2 * 3)
    | _, _ => 0
  else if d.gene_type = "continuous" then
    match v1, v2 with
    | some (GeneValue.Continuous f1), some (GeneValue.Continuous f2) =>
      match d.continuous_range with
      | some (mn, mx) => 1 - |((f1 : ℝ)) - (f2 : ℝ)| / ((mx : ℝ) - (mn : ℝ))
      | none => 0
    | _, _ => 0
  else if d.gene_type = "discrete" then
    match v1, v2 with
    | some (GeneValue.Discrete s1), some (GeneValue.Discrete s2) =>
      if s1 = s2 then 1 else 0
    | _, _ => 0
  else 0

/-- `Inheritance::calculate_similarity` from src/genetics/inheritance.rs:
every registered gene increments the denominator; the numerator adds the
per-gene contribution; the result is their quotient, or 0 with no genes. -/
noncomputable def calculate_similarity (defs : List (String × GeneDefinition))
    (g1 g2 : TraitFun) : ℝ :=
  let totals := defs.foldl
    (fun (acc : ℝ × ℝ) nd => (acc.1 + geneSimilarity nd.2 (g1 nd.1) (g2 nd.1), acc.2 + 1))
    (0, 0)
  if totals.2 > 0 then totals.1 / totals.2 else 0

/-- Kind-correctness and domain membership of a gene value against its
definition: the value constructor matches the declared kind, RGB channels are
bytes, a discrete value is among the declared options, and a continuous value
lies in the declared inclusive range. -/
def validValue (d : GeneDefinition) (v : GeneValue) : Bool :=
  match v with
  | GeneValue.Rgb c =>
    d.gene_type == "rgb" && (c.r ≤ 255 && (c.g ≤ 255 && c.b ≤ 255))
  | GeneValue.Discrete s =>
    d.gene_type == "discrete" &&
      (match d.discrete_options with
       | some opts => opts.contains s
       | none => false)
  | GeneValue.Continuous f =>
    d.gene_type == "continuous" &&
      (match d.continuous_range with
       | some (mn, mx) => decide (mn ≤ f) && decide (f ≤ mx)
       | none => false)

/-- One gene of a trait map is present with a valid value. -/
def geneOk (t : TraitFun) (nd : String × GeneDefinition) : Bool :=
  match t nd.1 with
  | some v => validValue nd.2 v
  | none => false

/-- A complete valid trait set for a registry: one in-domain, kind-correct
value per registered gene, and no entries outside the registry. -/
def completeValidFor (defs : List (String × GeneDefinition)) (t : TraitFun) : Prop :=
  (∀ nd ∈ defs, geneOk t nd = true) ∧
    ∀ name, defs.lookup name = none → t name = none

/-- The Rust `f32::clamp(self, min, max)` for `min ≤ max` (the only way the
source calls it). -/
def rustClamp (x mn mx : ℚ) : ℚ :=
  if x < mn then mn else if x > mx then mx else x

/-- The Rust `i16 clamp(0, 255) as u8` chain in `Mutation::mutate_rgb`. -/
def intClampToU8 (x : ℤ) : ℕ :=
  (max 0 (min x 255)).toNat

/-- `Mutation::mutate_rgb` from src/genetics/mutation.rs: each channel gets
independent integer noise (drawn from `gen_range(-30..=30)`, supplied here by
the oracle `deltas`), then clamps to `[0, 255]`. -/
def mutate_rgb (c : Rgb) (deltas : ℤ × ℤ × ℤ) : Rgb :=
  { r := intClampToU8 ((c.r : ℤ) + deltas.1)
    g := intClampToU8 ((c.g : ℤ) + deltas.2.1)
    b := intClampToU8 ((c.b : ℤ) + deltas.2.2) }

/-- `Mutation::mutate_discrete` from src/genetics/mutation.rs: pick a uniform
option different from the current value, or keep the value when no
alternative exists.  `pick` is the oracle for `gen_range(0..len)`, reduced
modulo the number of alternatives so every oracle value denotes an in-range
draw. -/
def mutate_discrete (current : String) (options : List String) (pick : ℕ) : String :=
  let available := options.filter (fun o => o ≠ current)
  if h : available = [] then current
  else available.get ⟨pick % available.length,
    Nat.mod_lt _ (List.length_pos.mpr h)⟩

/-- `Mutation::mutate_continuous` from src/genetics/mutation.rs: add Gaussian
noise scaled to 10% of the range width, then clamp to the range.  `normal` is
the oracle for the Box-Muller sample
`(-2 ln u1).sqrt() * cos(2 pi u2)` computed from the two uniform draws; every
real outcome of those draws is covered by quantifying over `normal`. -/
def mutate_continuous (value : ℚ) (range : ℚ × ℚ) (normal : ℚ) : ℚ :=
  let range_size := range.2 - range.1
  let mutation_strength := range_size * 0.1
  let mutation := normal * mutation_strength
  rustClamp (value + mutation) range.1 range.2

/-- Random outcomes consumed by `Mutation::mutate_gene` for one gene. -/
structure GeneNoise where
  deltas : ℤ × ℤ × ℤ
  pick : ℕ
  normal : ℚ

/-- `Mutation::mutate_gene` from src/genetics/mutation.rs: kind-specific
mutation when the value constructor matches the declared kind and the needed
domain data is present, otherwise the value is cloned unchanged. -/
def mutate_gene (v : GeneValue) (d : GeneDefinition) (o : GeneNoise) : GeneValue :=
  if d.gene_type = "rgb" then
    match v with
    | GeneValue.Rgb c => GeneValue.Rgb (mutate_rgb c o.deltas)
    | _ => v
  else if d.gene_type = "discrete" then
    match v with
    | GeneValue.Discrete s =>
      match d.discrete_options with
      | some opts => GeneValue.Discrete (mutate_discrete s opts o.pick)
      | none => v
    | _ => v
  else if d.gene_type = "continuous" then
    match v with
    | GeneValue.Continuous f =>
      match d.continuous_range with
      | some range => GeneValue.Continuous (mutate_continuous f range o.normal)
      | none => v
    | _ => v
  else v

/-- `Mutation::mutate` from src/genetics/mutation.rs.  The input map is an
association list with unique keys modelling the `HashMap`; the Rust code
clones the map and re-inserts a mutated value for every selected registered
key, which on unique keys is the pointwise update below.  `draw` is the
oracle for the per-gene `rng.gen::<f32>()` selection draw. -/
def mutateStep (defs : List (String × GeneDefinition)) (rate : ℚ)
    (draw : String → ℚ) (noise : String → GeneNoise)
    (nv : String × GeneValue) : String × GeneValue :=
  if draw nv.1 < rate then
    match defs.lookup nv.1 with
    | some d => (nv.1, mutate_gene nv.2 d (noise nv.1))
    | none => nv
  else nv

/-- `Mutation::mutate` itself: the pointwise update applied to every entry of
the input map. -/
def mutate (defs : List (String × GeneDefinition))
    (genetics : List (String × GeneValue)) (rate : ℚ)
    (draw : String → ℚ) (noise : String → GeneNoise) : List (String × GeneValue) :=
  genetics.map (mutateStep defs rate draw noise)

/-- The complete default trait set `GeneDefinitions::get_defaults`, as a
trait function over the registry. -/
def defaultsFun : TraitFun :=
  fun name => (geneDefinitionsNew.lookup name).map (fun d => d.default)

/-- The exact value of the `f32` nearest 0.3000297248, a reachable bias draw
from `gen_range(0.3..0.7)`. -/
def biasCex : ℚ := 10067327 / 33554432

/-- A gray color whose channels the `f32` blend truncates under `biasCex`. -/
def colorCex : Rgb := ⟨93, 93, 93⟩

/-- The registry defaults with `shell_base_color` set to `colorCex`: a
complete valid trait set. -/
def tCex : TraitFun :=
  fun name =>
    if name = "shell_base_color" then some (GeneValue.Rgb colorCex)
    else defaultsFun name

/-- The stats of the worked example in the spec: speed 5, max_energy 100,
recovery 5, swim 5, climb 5, stamina 3, luck 3 (also the `Default` impl of
`TurtleStats` in src/types.rs). -/
def exampleStats : TurtleStats := ⟨5, 100, 5, 5, 5, 3, 3⟩

/-- A fresh example turtle with `exampleStats`. -/
def exampleTurtle : Turtle := ⟨"t1", "Alpha", exampleStats, 100, 0, false, false⟩

/-- A turtle with positive stats whose recovery stat is huge compared to its
maximum energy, resting at energy 0. -/
def restingStats : TurtleStats := ⟨1, 1, 100, 1, 1, 3, 1⟩

/-- The resting turtle used to refute the energy upper bound. -/
def restingTurtle : Turtle := ⟨"r1", "Rester", restingStats, 0, 0, true, false⟩

/-- Nondegeneracy of a declared continuous range (used in the similarity
identity: a degenerate range would make the Rust quotient `0.0 / 0.0` a NaN
instead of 0). -/
def rangeWF (d : GeneDefinition) : Bool :=
  match d.continuous_range with
  | some (mn, mx) => decide (mn < mx)
  | none => true

/-- Turtle "A", first into the roster of the tie race. -/
def turtleA : Turtle := ⟨"id-a", "A", exampleStats, 100, 0, false, false⟩

/-- Turtle "B", second into the roster of the tie race, identical to "A" in
every stat. -/
def turtleB : Turtle := ⟨"id-b", "B", exampleStats, 100, 0, false, false⟩

/-- A one-segment race of length 1 holding the two identical turtles: both
finish on the first tick at exactly equal `race_distance`. -/
def raceTie : Race :=
  { track := [Terrain.normal], turtles := [turtleA, turtleB],
    track_length := 1, tick_count := 0 }

/-- The state of turtle "A" after the single tick of `raceTie`. -/
def turtleAfin : Turtle := ⟨"id-a", "A", exampleStats, 99.6, 5, false, true⟩

/-- The state of turtle "B" after the single tick of `raceTie`. -/
def turtleBfin : Turtle := ⟨"id-b", "B", exampleStats, 99.6, 5, false, true⟩

/-- The final state of `raceTie` when `run()` returns. -/
def raceTieFinal : Race :=
  { track := [Terrain.normal], turtles := [turtleAfin, turtleBfin],
    track_length := 1, tick_count := 1 }

/-- A race constructed with `track_length = 0`: its generated track is empty,
so any terrain lookup panics. -/
def raceNoTrack : Race := (Race.new 0 (fun _ => 0)).add_turtle turtleA

/-- A second race with an empty track and a nonempty roster. -/
def raceNoTrackB : Race := (Race.new 0 (fun _ => 0)).add_turtle turtleB

/-- A well-formed one-segment race used by witnesses. -/
def raceOneSeg : Race := (Race.new 40 (fun _ => 0)).add_turtle turtleA

/-- C5: in the Moving state, `update_physics` returns movement equal to speed
times the terrain-specific multiplier (Water `(swim/10)·modifier`, Rocks
`(climb/10)·modifier`, Sand `(1+recovery/15)·modifier`, Mud
`(energy/max_energy)·modifier`, Boost `modifier·1.2`, Normal `modifier`) and
drains energy by `0.5 · 0.8 · energy_drain` clamped at 0; and the worked
example (speed 5 on a Normal segment) moves 5.0 with energy 100.0 → 99.6. -/
theorem C5_update_physics_formulas :
    (∀ (t : Turtle) (terrain : Terrain), t.finished = false → t.is_resting = false →
      (t.update_physics terrain).2 =
        t.stats.speed * (match terrain.terrain_type with
          | TerrainType.Water => (t.stats.swim / 10) * terrain.speed_modifier
          | TerrainType.Rocks => (t.stats.climb / 10) * terrain.speed_modifier
          | TerrainType.Sand => (1 + t.stats.recovery / 15) * terrain.speed_modifier
          | TerrainType.Mud => (t.current_energy / t.stats.max_energy) * terrain.speed_modifier
          | TerrainType.Boost => terrain.speed_modifier * 1.2
          | TerrainType.Normal => terrain.speed_modifier) ∧
      (t.update_physics terrain).1.current_energy =
        max 0 (t.current_energy - 0.5 * 0.8 * terrain.energy_drain)) ∧
    ((exampleTurtle.update_physics Terrain.normal).2 = 5 ∧
      exampleTurtle.current_energy = 100 ∧
      (exampleTurtle.update_physics Terrain.normal).1.current_energy = 99.6) := by
  constructor
  · intro t terrain hf hr
    simp only [Turtle.update_physics, hf, hr, Bool.false_eq_true, if_false]
    constructor
    · split <;> rfl
    · have hd : (0.5 : ℚ) * TERRAIN_DIFFICULTY = 0.5 * 0.8 := by
        norm_num [TERRAIN_DIFFICULTY]
      split
      · rename_i h
        rw [hd] at h
        simp only [max_eq_left h]
      · rename_i h
        rw [hd] at h
        push_neg at h
        rw [hd, max_eq_right h.le]
  · refine ⟨?_, ?_, ?_⟩ <;>
      norm_num [Turtle.update_physics, exampleTurtle, exampleStats, Terrain.normal,
        TERRAIN_DIFFICULTY]

/-- Witness for C5: the energy-drain clause evaluated on the example turtle
crossing a Water segment. -/
theorem C5_update_physics_formulas_witness :
    (exampleTurtle.update_physics Terrain.water).1.current_energy =
      max 0 (exampleTurtle.current_energy - 0.5 * 0.8 * Terrain.water.energy_drain) :=
  (C5_update_physics_formulas.1 exampleTurtle Terrain.water rfl rfl).2

/-- C2 counterexample: `restingTurtle` has all stats positive and energy 0,
inside `[0, max_energy]`, yet one resting tick of `update_physics` raises
`current_energy` to 11.5, strictly above its `max_energy` of 1: the recovery
step has no clamp at `max_energy`, so the claimed invariant fails. -/
theorem C2_energy_cex :
    (0 < restingStats.speed ∧ 0 < restingStats.max_energy ∧ 0 < restingStats.recovery ∧
      0 < restingStats.swim ∧ 0 < restingStats.climb ∧ 0 < restingStats.stamina ∧
      0 < restingStats.luck) ∧
    0 ≤ restingTurtle.current_energy ∧
    restingTurtle.current_energy ≤ restingTurtle.stats.max_energy ∧
    restingTurtle.stats.max_energy <
      (restingTurtle.update_physics Terrain.normal).1.current_energy := by
  norm_num [Turtle.update_physics, restingTurtle, restingStats, Terrain.normal,
    RECOVERY_RATE, RECOVERY_THRESHOLD]

/-- C2 as amended: for positive stats and a nonnegative terrain drain,
`update_physics` keeps `current_energy` in `[0, max_energy]` provided the
per-tick recovery increment `recovery · 0.1 · (1 + stamina/20)` is at most
`max_energy / 2` and a resting turtle starts below the 50% recovery
threshold (true of every reachable resting state, which is entered at energy
0); the below-threshold property of resting states is itself preserved. -/
theorem C2_energy_invariant (t : Turtle) (terrain : Terrain)
    (hmax : 0 < t.stats.max_energy) (hrec : 0 ≤ t.stats.recovery)
    (hsta : 0 ≤ t.stats.stamina) (hdrain : 0 ≤ terrain.energy_drain)
    (hslow : t.stats.recovery * (RECOVERY_RATE * (1 + t.stats.stamina / 20)) ≤
      t.stats.max_energy / 2)
    (h0 : 0 ≤ t.current_energy) (h1 : t.current_energy ≤ t.stats.max_energy)
    (hrest : t.is_resting = true → t.current_energy < t.stats.max_energy / 2) :
    0 ≤ (t.update_physics terrain).1.current_energy ∧
    (t.update_physics terrain).1.current_energy ≤ t.stats.max_energy ∧
    ((t.update_physics terrain).1.is_resting = true →
      (t.update_physics terrain).1.current_energy < t.stats.max_energy / 2) := by
  have hrate : 0 ≤ t.stats.recovery * (RECOVERY_RATE * (1 + t.stats.stamina / 20)) := by
    apply mul_nonneg hrec
    apply mul_nonneg (by norm_num [RECOVERY_RATE])
    linarith
  have hdr : 0 ≤ 0.5 * TERRAIN_DIFFICULTY * terrain.energy_drain := by
    have h : (0 : ℚ) ≤ 0.5 * TERRAIN_DIFFICULTY := by norm_num [TERRAIN_DIFFICULTY]
    exact mul_nonneg h hdrain
  cases hf : t.finished with
  | true =>
    simp only [Turtle.update_physics, hf, if_true]
    exact ⟨h0, h1, hrest⟩
  | false =>
    cases hr : t.is_resting with
    | true =>
      have hlt := hrest hr
      simp only [Turtle.update_physics, hf, hr, Bool.false_eq_true, if_false, if_true,
        RECOVERY_THRESHOLD]
      split
      · refine ⟨by linarith, by linarith, ?_⟩
        simp
      · rename_i h
        push_neg at h
        have h2 : t.current_energy + t.stats.recovery * (RECOVERY_RATE * (1 + t.stats.stamina / 20)) <
            t.stats.max_energy / 2 := by
          have := h
          nlinarith [this]
        exact ⟨by linarith, by linarith, fun _ => h2⟩
    | false =>
      simp only [Turtle.update_physics, hf, hr, Bool.false_eq_true, if_false]
      split
      · refine ⟨le_refl 0, by linarith, fun _ => by linarith⟩
      · rename_i h
        push_neg at h
        exact ⟨by linarith, by linarith, fun hcon => by simp at hcon⟩

/-- Witness for C2: the invariant instantiated on the example turtle crossing
a Mud segment. -/
theorem C2_energy_invariant_witness :
    0 ≤ (exampleTurtle.update_physics Terrain.mud).1.current_energy ∧
    (exampleTurtle.update_physics Terrain.mud).1.current_energy ≤
      exampleTurtle.stats.max_energy ∧
    ((exampleTurtle.update_physics Terrain.mud).1.is_resting = true →
      (exampleTurtle.update_physics Terrain.mud).1.current_energy <
        exampleTurtle.stats.max_energy / 2) :=
  C2_energy_invariant exampleTurtle Terrain.mud
    (by norm_num [exampleTurtle, exampleStats])
    (by norm_num [exampleTurtle, exampleStats])
    (by norm_num [exampleTurtle, exampleStats])
    (by norm_num [Terrain.mud])
    (by norm_num [exampleTurtle, exampleStats, RECOVERY_RATE])
    (by norm_num [exampleTurtle])
    (by norm_num [exampleTurtle, exampleStats])
    (by simp [exampleTurtle])

/-- Inserting into the stable sort permutes the consed list. -/
theorem insertPos_perm (x : String × ℚ) (l : List (String × ℚ)) :
    (insertPos x l).Perm (x :: l) := by
  induction l with
  | nil => simp [insertPos]
  | cons y ys ih =>
    by_cases h : y.2 ≤ x.2
    · simp [insertPos, h]
    · rw [insertPos, if_neg h]
      exact (ih.cons y).trans (List.Perm.swap x y ys)

/-- Inserting preserves the descending-by-distance pairwise order. -/
theorem insertPos_sorted (x : String × ℚ) (l : List (String × ℚ))
    (hl : l.Pairwise (fun a b => b.2 ≤ a.2)) :
    (insertPos x l).Pairwise (fun a b => b.2 ≤ a.2) := by
  induction l with
  | nil => simp [insertPos]
  | cons y ys ih =>
    rcases List.pairwise_cons.mp hl with ⟨hy, hys⟩
    by_cases h : y.2 ≤ x.2
    · rw [insertPos, if_pos h]
      refine List.pairwise_cons.mpr ⟨?_, hl⟩
      intro z hz
      rcases List.mem_cons.mp hz with hz | hz
      · exact hz ▸ h
      · exact le_trans (hy z hz) h
    · rw [insertPos, if_neg h]
      refine List.pairwise_cons.mpr ⟨?_, ih hys⟩
      intro z hz
      rcases List.mem_cons.mp ((insertPos_perm x ys).mem_iff.mp hz) with hz | hz
      · exact hz ▸ le_of_lt (lt_of_not_le h)
      · exact hy z hz

/-- Stability of a single insertion: restricted to any fixed distance value,
insertion either prepends the new element (when it has that distance) or
leaves the restriction unchanged. -/
theorem insertPos_filter (d : ℚ) (x : String × ℚ) (l : List (String × ℚ)) :
    (insertPos x l).filter (fun p => decide (p.2 = d)) =
      if x.2 = d then x :: l.filter (fun p => decide (p.2 = d))
      else l.filter (fun p => decide (p.2 = d)) := by
  induction l with
  | nil => by_cases h : x.2 = d <;> simp [insertPos, h]
  | cons y ys ih =>
    rw [insertPos]
    by_cases h : y.2 ≤ x.2
    · rw [if_pos h]
      by_cases hx : x.2 = d <;> by_cases hy : y.2 = d <;>
        simp [List.filter_cons, hx, hy]
    · rw [if_neg h]
      by_cases hx : x.2 = d
      · have hy : ¬(y.2 = d) := fun hyd => h (le_of_eq (hyd.trans hx.symm))
        simp [List.filter_cons, hy, hx, ih]
      · by_cases hy : y.2 = d <;> simp [List.filter_cons, hy, hx, ih]

/-- The stable sort is a permutation of its input. -/
theorem sortPositions_perm (l : List (String × ℚ)) : (sortPositions l).Perm l := by
  induction l with
  | nil => simp [sortPositions]
  | cons x xs ih =>
    exact (insertPos_perm x (sortPositions xs)).trans (ih.cons x)

/-- The stable sort is pairwise descending by distance. -/
theorem sortPositions_sorted (l : List (String × ℚ)) :
    (sortPositions l).Pairwise (fun a b => b.2 ≤ a.2) := by
  induction l with
  | nil => simp [sortPositions]
  | cons x xs ih => exact insertPos_sorted x (sortPositions xs) ih

/-- Stability of the sort: restricted to any fixed distance value, the sorted
list keeps exactly the input order. -/
theorem sortPositions_filter (d : ℚ) (l : List (String × ℚ)) :
    (sortPositions l).filter (fun p => decide (p.2 = d)) =
      l.filter (fun p => decide (p.2 = d)) := by
  induction l with
  | nil => simp [sortPositions]
  | cons x xs ih =>
    rw [sortPositions, insertPos_filter d x (sortPositions xs)]
    by_cases hx : x.2 = d <;> simp [List.filter_cons, hx, ih]

/-- C9: `get_positions()` returns exactly one `(name, race_distance)` pair
per roster member (a permutation of the roster projection), sorted descending
by distance, and stably: restricted to any fixed distance, the output order
equals the original `add_turtle` roster order. -/
theorem C9_get_positions_stable (r : Race) :
    (r.get_positions).Perm (r.turtles.map (fun t => (t.name, t.race_distance))) ∧
    List.Pairwise (fun (a b : String × ℚ) => b.2 ≤ a.2) r.get_positions ∧
    ∀ d : ℚ, r.get_positions.filter (fun p => decide (p.2 = d)) =
      (r.turtles.map (fun t => (t.name, t.race_distance))).filter
        (fun p => decide (p.2 = d)) :=
  ⟨sortPositions_perm _, sortPositions_sorted _, fun d => sortPositions_filter d _⟩

/-- The Rust clamp keeps a value inside a nonempty interval. -/
theorem rustClamp_mem (x mn mx : ℚ) (h : mn ≤ mx) :
    mn ≤ rustClamp x mn mx ∧ rustClamp x mn mx ≤ mx := by
  unfold rustClamp
  split
  · exact ⟨le_refl mn, h⟩
  · split
    · exact ⟨h, le_refl mx⟩
    · rename_i h1 h2
      push_neg at h1 h2
      exact ⟨h1, h2⟩

/-- Every continuous range declared in the registry is nonempty. -/
theorem geneDefinitionsNew_ranges (nd : String × GeneDefinition)
    (hmem : nd ∈ geneDefinitionsNew) (mn mx : ℚ)
    (hrange : nd.2.continuous_range = some (mn, mx)) : mn ≤ mx := by
  fin_cases hmem <;>
    simp only [GeneDefinition.continuous, GeneDefinition.rgb,
      GeneDefinition.discrete, Option.some.injEq, Prod.mk.injEq,
      reduceCtorEq] at hrange
  all_goals obtain ⟨h1, h2⟩ := hrange
  all_goals rw [← h1, ← h2]
  all_goals norm_num

/-- C7: for every registered Continuous gene and every input value, the value
produced by the continuous mutation rule lies within the declared inclusive
range `[min, max]`, for every outcome of the random draws feeding the
Box-Muller transform (the Gaussian sample is quantified as an arbitrary
rational `normal`, covering every finite outcome of the two uniform draws;
the final clamp forces the result into the range regardless of the noise). -/
theorem C7_mutate_continuous_range (name : String) (d : GeneDefinition)
    (hmem : (name, d) ∈ geneDefinitionsNew) (mn mx : ℚ)
    (hrange : d.continuous_range = some (mn, mx)) (value normal : ℚ) :
    mn ≤ mutate_continuous value (mn, mx) normal ∧
      mutate_continuous value (mn, mx) normal ≤ mx := by
  have hle : mn ≤ mx := geneDefinitionsNew_ranges (name, d) hmem mn mx hrange
  unfold mutate_continuous
  exact rustClamp_mem _ _ _ hle

/-- Witness for C7: the density gene mutated from value 0.5 with Gaussian
sample 37 stays inside its declared range `[0.1, 1.0]`. -/
theorem C7_mutate_continuous_range_witness :
    0.1 ≤ mutate_continuous 0.5 (0.1, 1.0) 37 ∧
      mutate_continuous 0.5 (0.1, 1.0) 37 ≤ 1.0 :=
  C7_mutate_continuous_range "shell_pattern_density"
    (GeneDefinition.continuous (0.1, 1.0) 0.5 "Pattern density/intensity")
    (by simp [geneDefinitionsNew]) 0.1 1.0 rfl 0.5 37

/-- The per-key mutation step never changes the key. -/
theorem mutateStep_fst (defs : List (String × GeneDefinition)) (rate : ℚ)
    (draw : String → ℚ) (noise : String → GeneNoise) (nv : String × GeneValue) :
    (mutateStep defs rate draw noise nv).1 = nv.1 := by
  unfold mutateStep
  split
  · split <;> rfl
  · rfl

/-- The per-key mutation step leaves unregistered genes untouched. -/
theorem mutateStep_unregistered (defs : List (String × GeneDefinition)) (rate : ℚ)
    (draw : String → ℚ) (noise : String → GeneNoise) (nv : String × GeneValue)
    (h : defs.lookup nv.1 = none) :
    mutateStep defs rate draw noise nv = nv := by
  unfold mutateStep
  split
  · rw [h]
  · rfl

/-- C10: for every input trait map and every mutation rate, `mutate` returns
a map with exactly the input's gene names (in fact the same key list), and
every gene without a registry entry keeps its input value unchanged. -/
theorem C10_mutate_keys (defs : List (String × GeneDefinition))
    (genetics : List (String × GeneValue)) (rate : ℚ)
    (draw : String → ℚ) (noise : String → GeneNoise) :
    (mutate defs genetics rate draw noise).map Prod.fst = genetics.map Prod.fst ∧
    ∀ name : String, defs.lookup name = none →
      (mutate defs genetics rate draw noise).lookup name = genetics.lookup name := by
  constructor
  · unfold mutate
    rw [List.map_map]
    apply List.map_congr_left
    intro nv _
    exact mutateStep_fst defs rate draw noise nv
  · intro name hname
    induction genetics with
    | nil => rfl
    | cons nv tl ih =>
      show List.lookup name (mutateStep defs rate draw noise nv :: mutate defs tl rate draw noise) = _
      rw [List.lookup, List.lookup, mutateStep_fst]
      by_cases hb : name == nv.1
      · have hn : name = nv.1 := eq_of_beq hb
        have hstep : mutateStep defs rate draw noise nv = nv :=
          mutateStep_unregistered defs rate draw noise nv (hn ▸ hname)
        rw [hb, hstep]
      · rw [Bool.not_eq_true] at hb
        rw [hb]
        exact ih

/-- Witness for C10: mutating a single-entry map holding only an unregistered
gene returns it unchanged. -/
theorem C10_mutate_keys_witness :
    (mutate geneDefinitionsNew [("mystery_gene", GeneValue.Discrete "x")] 1
        (fun _ => 0) (fun _ => ⟨(0, 0, 0), 0, 0⟩)).lookup "mystery_gene" =
      [("mystery_gene", GeneValue.Discrete "x")].lookup "mystery_gene" :=
  (C10_mutate_keys geneDefinitionsNew [("mystery_gene", GeneValue.Discrete "x")] 1
      (fun _ => 0) (fun _ => ⟨(0, 0, 0), 0, 0⟩)).2 "mystery_gene" rfl

/-- A successful association-list lookup yields a member of the list. -/
theorem lookup_some_mem (l : List (String × GeneDefinition)) (a : String)
    (d : GeneDefinition) (h : l.lookup a = some d) : (a, d) ∈ l := by
  induction l with
  | nil => simp [List.lookup] at h
  | cons nd tl ih =>
    obtain ⟨k, v⟩ := nd
    rw [List.lookup] at h
    by_cases hb : a == k
    · rw [hb] at h
      have ha : a = k := eq_of_beq hb
      have hd : v = d := Option.some.inj h
      subst ha
      subst hd
      exact List.mem_cons_self _ _
    · rw [Bool.not_eq_true] at hb
      rw [hb] at h
      exact List.mem_cons_of_mem _ (ih h)

/-- Blending a color with itself reproduces it exactly (in exact arithmetic),
whenever its channels are bytes. -/
theorem Rgb.blend_self (c : Rgb) (bias : ℚ) (h1 : c.r ≤ 255) (h2 : c.g ≤ 255)
    (h3 : c.b ≤ 255) : Rgb.blend c c bias = c := by
  have key : ∀ n : ℕ, n ≤ 255 →
      ratToU8 ((n : ℚ) * (1 - min (max bias 0) 1) + (n : ℚ) * min (max bias 0) 1) = n := by
    intro n hn
    have harith : (n : ℚ) * (1 - min (max bias 0) 1) + (n : ℚ) * min (max bias 0) 1
        = (n : ℚ) := by ring
    rw [harith]
    unfold ratToU8
    rw [if_neg (by simp)]
    simp
    omega
  cases c with
  | mk r g b =>
    simp only [Rgb.blend]
    simp only at h1 h2 h3
    rw [key r h1, key g h2, key b h3]

/-- C3 as amended: for every complete valid trait set `t` over a registry,
`inherit(t, t)` reproduces `t` exactly, and `inherit_blended(t, t)`
reproduces `t` in exact (infinite-precision) arithmetic — Discrete and
Continuous genes exactly, and each RGB channel as the exact interpolation
`r·(1−bias) + r·bias = r` — for every outcome of the 50/50 parent picks and
every blend bias in `[0.3, 0.7]`.  Under the source's `f32` evaluation of
the RGB blend the identity fails for some reachable bias draws: see
`C3_inherit_self_cex` on the rounding-faithful model `inherit_blended32`. -/
theorem C3_inherit_self_id (defs : List (String × GeneDefinition)) (t : TraitFun)
    (choose chooseB : String → Bool) (bias : String → ℚ)
    (hvalid : ∀ nd ∈ defs, geneOk t nd = true)
    (hsupp : ∀ name, defs.lookup name = none → t name = none)
    (hbias : ∀ name, 3/10 ≤ bias name ∧ bias name ≤ 7/10) :
    ∀ name, inherit defs t t choose name = t name ∧
      inherit_blended defs t t chooseB bias name = t name := by
  intro name
  cases hl : defs.lookup name with
  | none =>
    have ht : t name = none := hsupp name hl
    constructor
    · simp only [inherit, hl, ht]
    · simp only [inherit_blended, hl, ht]
  | some d =>
    obtain ⟨v, hv, hval⟩ : ∃ v, t name = some v ∧ validValue d v = true := by
      have hmem := lookup_some_mem defs name d hl
      have hok := hvalid (name, d) hmem
      unfold geneOk at hok
      cases htn : t name with
      | none => rw [htn] at hok; exact absurd hok (by simp)
      | some v => rw [htn] at hok; exact ⟨v, rfl, hok⟩
    constructor
    · simp only [inherit, hl, hv]
      simp
    · simp only [inherit_blended, hl, hv]
      cases v with
      | Rgb c =>
        unfold validValue at hval
        rw [Bool.and_eq_true, Bool.and_eq_true, Bool.and_eq_true] at hval
        obtain ⟨hty, hc1, hc2, hc3⟩ := hval
        have hty1 : d.gene_type = "rgb" := eq_of_beq hty
        simp [hty1, Rgb.blend_self c (bias name) (of_decide_eq_true hc1)
          (of_decide_eq_true hc2) (of_decide_eq_true hc3)]
      | Discrete s =>
        unfold validValue at hval
        rw [Bool.and_eq_true] at hval
        have hty1 : d.gene_type = "discrete" := eq_of_beq hval.1
        simp [hty1]
      | Continuous f =>
        unfold validValue at hval
        rw [Bool.and_eq_true] at hval
        have hty1 : d.gene_type = "continuous" := eq_of_beq hval.1
        have hmean : (f + f) / 2 = f := by ring
        simp [hty1, hmean]

/-- Witness for C3: both inheritance operators reproduce the registry default
trait set at the gene `shell_base_color`. -/
theorem C3_inherit_self_id_witness :
    inherit geneDefinitionsNew defaultsFun defaultsFun (fun _ => true) "shell_base_color" =
        defaultsFun "shell_base_color" ∧
      inherit_blended geneDefinitionsNew defaultsFun defaultsFun (fun _ => false)
        (fun _ => 1/2) "shell_base_color" = defaultsFun "shell_base_color" :=
  C3_inherit_self_id geneDefinitionsNew defaultsFun (fun _ => true) (fun _ => false)
    (fun _ => 1/2)
    (by
      intro nd hnd
      fin_cases hnd <;>
        simp [geneOk, defaultsFun, geneDefinitionsNew, validValue,
          GeneDefinition.continuous, GeneDefinition.rgb, GeneDefinition.discrete,
          List.lookup] <;>
        norm_num)
    (fun name h => by simp [defaultsFun, h])
    (fun name => ⟨by norm_num, by norm_num⟩)
    "shell_base_color"

/-- The squared color distance is symmetric. -/
theorem Rgb.dist2_comm (c1 c2 : Rgb) : Rgb.dist2 c1 c2 = Rgb.dist2 c2 c1 := by
  unfold Rgb.dist2
  ring

/-- The color distance is symmetric. -/
theorem Rgb.distance_comm (c1 c2 : Rgb) : Rgb.distance c1 c2 = Rgb.distance c2 c1 := by
  unfold Rgb.distance
  rw [Rgb.dist2_comm]

/-- The per-gene similarity contribution is symmetric in its two values. -/
theorem geneSimilarity_comm (d : GeneDefinition) (v1 v2 : Option GeneValue) :
    geneSimilarity d v1 v2 = geneSimilarity d v2 v1 := by
  unfold geneSimilarity
  rcases v1 with _ | w1 <;> rcases v2 with _ | w2
  · rfl
  · split_ifs <;> (cases w2 <;> rfl)
  · split_ifs <;> (cases w1 <;> rfl)
  · cases w1 <;> cases w2 <;> split_ifs <;> try rfl
    · rename_i c1 c2 h
      show 1 - Rgb.distance c1 c2 / Real.sqrt ((255 : ℝ) ^ 2 * 3) =
        1 - Rgb.distance c2 c1 / Real.sqrt ((255 : ℝ) ^ 2 * 3)
      rw [Rgb.distance_comm]
    · rename_i s1 s2 h1 h2 h3
      show (if s1 = s2 then (1 : ℝ) else 0) = if s2 = s1 then (1 : ℝ) else 0
      by_cases hs : s1 = s2
      · rw [hs]
      · rw [if_neg hs, if_neg (fun hcon => hs hcon.symm)]
    · rename_i f1 f2 h1 h2
      show (match d.continuous_range with
        | some (mn, mx) => 1 - |(f1 : ℝ) - (f2 : ℝ)| / ((mx : ℝ) - (mn : ℝ))
        | none => (0 : ℝ)) =
        match d.continuous_range with
        | some (mn, mx) => 1 - |(f2 : ℝ) - (f1 : ℝ)| / ((mx : ℝ) - (mn : ℝ))
        | none => (0 : ℝ)
      cases d.continuous_range with
      | none => rfl
      | some p =>
        obtain ⟨mn, mx⟩ := p
        show 1 - |(f1 : ℝ) - (f2 : ℝ)| / ((mx : ℝ) - (mn : ℝ)) =
          1 - |(f2 : ℝ) - (f1 : ℝ)| / ((mx : ℝ) - (mn : ℝ))
        rw [abs_sub_comm]

/-- The similarity contribution of a valid value paired with itself is
exactly 1; nondegeneracy of the declared range keeps the Rust quotient away
from `0.0 / 0.0`. -/
theorem geneSimilarity_self (d : GeneDefinition) (v : GeneValue)
    (hval : validValue d v = true) (hwf : rangeWF d = true) :
    geneSimilarity d (some v) (some v) = 1 := by
  cases v with
  | Rgb c =>
    have hty : d.gene_type = "rgb" := by
      unfold validValue at hval
      rw [Bool.and_eq_true] at hval
      exact eq_of_beq hval.1
    have hdist : Rgb.distance c c = 0 := by
      unfold Rgb.distance Rgb.dist2
      have hz : ((c.r : ℚ) - (c.r : ℚ)) * ((c.r : ℚ) - (c.r : ℚ))
          + ((c.g : ℚ) - (c.g : ℚ)) * ((c.g : ℚ) - (c.g : ℚ))
          + ((c.b : ℚ) - (c.b : ℚ)) * ((c.b : ℚ) - (c.b : ℚ)) = 0 := by ring
      rw [hz]
      simp
    unfold geneSimilarity
    rw [if_pos hty]
    show 1 - Rgb.distance c c / Real.sqrt ((255 : ℝ) ^ 2 * 3) = 1
    rw [hdist]
    simp
  | Discrete s =>
    have hty : d.gene_type = "discrete" := by
      unfold validValue at hval
      rw [Bool.and_eq_true] at hval
      exact eq_of_beq hval.1
    unfold geneSimilarity
    rw [hty]
    simp
  | Continuous f =>
    have hty : d.gene_type = "continuous" := by
      unfold validValue at hval
      rw [Bool.and_eq_true] at hval
      exact eq_of_beq hval.1
    unfold geneSimilarity
    rw [hty]
    cases hr : d.continuous_range with
    | none =>
      unfold validValue at hval
      rw [hty, hr] at hval
      simp at hval
    | some p =>
      obtain ⟨mn, mx⟩ := p
      simp [hr]

/-- Every continuous range declared in the registry is nondegenerate. -/
theorem geneDefinitionsNew_rangeWF :
    ∀ nd ∈ geneDefinitionsNew, rangeWF nd.2 = true := by
  intro nd hnd
  fin_cases hnd <;>
    simp [rangeWF, GeneDefinition.rgb, GeneDefinition.discrete,
      GeneDefinition.continuous] <;>
    norm_num

/-- The registry default trait set is complete and valid. -/
theorem defaults_geneOk : ∀ nd ∈ geneDefinitionsNew, geneOk defaultsFun nd = true := by
  intro nd hnd
  fin_cases hnd <;>
    simp [geneOk, defaultsFun, geneDefinitionsNew, validValue,
      GeneDefinition.continuous, GeneDefinition.rgb, GeneDefinition.discrete,
      List.lookup] <;>
    norm_num

/-- The similarity accumulator over a self-comparison of a valid trait set
adds exactly 1 per registered gene to both components. -/
theorem similarity_foldl_self (t : TraitFun) (defs : List (String × GeneDefinition))
    (h : ∀ nd ∈ defs, geneOk t nd = true ∧ rangeWF nd.2 = true) :
    ∀ acc : ℝ × ℝ,
      defs.foldl
        (fun (acc : ℝ × ℝ) nd =>
          (acc.1 + geneSimilarity nd.2 (t nd.1) (t nd.1), acc.2 + 1)) acc
      = (acc.1 + defs.length, acc.2 + defs.length) := by
  induction defs with
  | nil => intro acc; simp
  | cons nd tl ih =>
    intro acc
    obtain ⟨hok, hwf⟩ := h nd (List.mem_cons_self _ _)
    have hone : geneSimilarity nd.2 (t nd.1) (t nd.1) = 1 := by
      unfold geneOk at hok
      cases htn : t nd.1 with
      | none => rw [htn] at hok; simp at hok
      | some v =>
        rw [htn] at hok
        exact geneSimilarity_self nd.2 v hok hwf
    simp only [List.foldl_cons, hone]
    rw [ih (fun x hx => h x (List.mem_cons_of_mem _ hx))]
    simp only [List.length_cons, Prod.mk.injEq]
    constructor <;> push_cast <;> ring

/-- The similarity accumulator is symmetric in the two trait maps. -/
theorem similarity_foldl_comm (g1 g2 : TraitFun)
    (defs : List (String × GeneDefinition)) :
    ∀ acc : ℝ × ℝ,
      defs.foldl
        (fun (acc : ℝ × ℝ) nd =>
          (acc.1 + geneSimilarity nd.2 (g1 nd.1) (g2 nd.1), acc.2 + 1)) acc
      = defs.foldl
          (fun (acc : ℝ × ℝ) nd =>
            (acc.1 + geneSimilarity nd.2 (g2 nd.1) (g1 nd.1), acc.2 + 1)) acc := by
  induction defs with
  | nil => intro acc; rfl
  | cons nd tl ih =>
    intro acc
    simp only [List.foldl_cons]
    rw [geneSimilarity_comm]
    exact ih _

/-- C8: `calculate_similarity` is symmetric in its two trait maps, and the
similarity of a complete valid trait set with itself over the registry is
exactly 1. -/
theorem C8_similarity_sym_self :
    (∀ (defs : List (String × GeneDefinition)) (g1 g2 : TraitFun),
      calculate_similarity defs g1 g2 = calculate_similarity defs g2 g1) ∧
    (∀ t : TraitFun, completeValidFor geneDefinitionsNew t →
      calculate_similarity geneDefinitionsNew t t = 1) := by
  constructor
  · intro defs g1 g2
    unfold calculate_similarity
    rw [similarity_foldl_comm g1 g2 defs]
  · intro t ht
    obtain ⟨hok, -⟩ := ht
    unfold calculate_similarity
    rw [similarity_foldl_self t geneDefinitionsNew
      (fun nd hnd => ⟨hok nd hnd, geneDefinitionsNew_rangeWF nd hnd⟩)]
    norm_num [geneDefinitionsNew]

/-- Witness for C8: the registry defaults have self-similarity exactly 1. -/
theorem C8_similarity_sym_self_witness :
    calculate_similarity geneDefinitionsNew defaultsFun defaultsFun = 1 :=
  C8_similarity_sym_self.2 defaultsFun
    ⟨defaults_geneOk, fun name h => by simp [defaultsFun, h]⟩

/-- On a nonempty track every terrain lookup succeeds: the segment index is
clamped to the last segment. -/
theorem get_terrain_at_isSome (r : Race) (h : r.track ≠ []) (dist : ℚ) :
    (r.get_terrain_at dist).isSome = true := by
  unfold Race.get_terrain_at
  cases htr : r.track with
  | nil => exact absurd htr h
  | cons a l => rfl

/-- On a nonempty track the terrain collection of `tick` succeeds for every
roster and returns one segment per turtle. -/
theorem collectTerrains_some (r : Race) (h : r.track ≠ []) :
    ∀ ts : List Turtle, ∃ l, collectTerrains r ts = some l ∧ l.length = ts.length := by
  intro ts
  induction ts with
  | nil => exact ⟨[], rfl, rfl⟩
  | cons t ts ih =>
    obtain ⟨l, hl, hlen⟩ := ih
    obtain ⟨terrain, hterrain⟩ :=
      Option.isSome_iff_exists.mp (get_terrain_at_isSome r h t.race_distance)
    refine ⟨terrain :: l, ?_, by simp [hlen]⟩
    unfold collectTerrains
    rw [hterrain, hl]

/-- The physics update never changes a turtle's name. -/
theorem update_physics_name (t : Turtle) (terrain : Terrain) :
    (t.update_physics terrain).1.name = t.name := by
  unfold Turtle.update_physics
  dsimp only
  split
  · rfl
  · split
    · split <;> rfl
    · split <;> rfl

/-- The per-tick turtle update never changes a turtle's name. -/
theorem tickTurtle_name (L : ℚ) (t : Turtle) (terrain : Terrain) :
    (tickTurtle L t terrain).name = t.name := by
  unfold tickTurtle
  dsimp only
  split
  · exact update_physics_name t terrain
  · exact update_physics_name t terrain

/-- The update loop preserves the list of turtle names. -/
theorem updateTurtles_names (L : ℚ) :
    ∀ (ts : List Turtle) (ters : List Terrain), ters.length = ts.length →
      (updateTurtles L ts ters).map Turtle.name = ts.map Turtle.name := by
  intro ts
  induction ts with
  | nil => intro ters _; cases ters <;> rfl
  | cons t ts ih =>
    intro ters hlen
    cases ters with
    | nil => simp at hlen
    | cons terrain rest =>
      unfold updateTurtles
      simp only [List.map_cons]
      congr 1
      · split
        · rfl
        · exact tickTurtle_name L t terrain
      · exact ih rest (by simpa using hlen)

/-- A tick on a race with a nonempty track (or an empty roster) succeeds and
preserves the track, advances the tick counter, preserves turtle names, and
reports "not over" only below the tick cap. -/
theorem tick_some (r : Race) (hc : r.track ≠ [] ∨ r.turtles = []) :
    ∃ r2 d, r.tick = some (r2, d) ∧ r2.track = r.track ∧
      r2.track_length = r.track_length ∧
      r2.tick_count = r.tick_count + 1 ∧
      r2.turtles.map Turtle.name = r.turtles.map Turtle.name ∧
      (d = false → r2.tick_count < MAX_TICKS) := by
  have hcol : ∃ l, collectTerrains { r with tick_count := r.tick_count + 1 } r.turtles = some l ∧
      l.length = r.turtles.length := by
    rcases hc with hc | hc
    · exact collectTerrains_some _ (by simpa using hc) r.turtles
    · rw [hc]
      exact ⟨[], rfl, rfl⟩
  obtain ⟨l, hl, hlen⟩ := hcol
  have hkey : r.tick = some
      ({ r with
          tick_count := r.tick_count + 1
          turtles := updateTurtles r.track_length r.turtles l },
        (updateTurtles r.track_length r.turtles l).any (fun t => t.finished) ||
          decide (r.tick_count + 1 ≥ MAX_TICKS)) := by
    unfold Race.tick
    rw [hl]
  refine ⟨_, _, hkey, rfl, rfl, rfl,
    updateTurtles_names r.track_length r.turtles l hlen, ?_⟩
  intro hd
  rcases Bool.or_eq_false_iff.mp hd with ⟨-, hdec⟩
  have hlt := of_decide_eq_false hdec
  simp only [ge_iff_le, not_le] at hlt
  simpa using hlt

/-- The run loop propagates a tick panic. -/
theorem runLoop_tick_none (r : Race) (h : r.tick = none) : r.runLoop = none := by
  unfold Race.runLoop
  split
  · rfl
  · rename_i r2 heq
    rw [h] at heq
    cases heq
  · rename_i r2 heq
    rw [h] at heq
    cases heq

/-- The run loop stops after a tick that reports the race over. -/
theorem runLoop_tick_done (r r2 : Race) (h : r.tick = some (r2, true)) :
    r.runLoop = some r2 := by
  unfold Race.runLoop
  split
  · rename_i heq
    rw [h] at heq
    cases heq
  · rename_i r3 heq
    rw [h] at heq
    injection heq with h2
    injection h2 with h3 h4
    rw [h3]
  · rename_i r3 heq
    rw [h] at heq
    injection heq with h2
    injection h2 with h3 h4
    cases h4

/-- The run loop continues after a tick that reports the race not over. -/
theorem runLoop_tick_continue (r r2 : Race) (h : r.tick = some (r2, false)) :
    r.runLoop = r2.runLoop := by
  conv_lhs => unfold Race.runLoop
  split
  · rename_i heq
    rw [h] at heq
    cases heq
  · rename_i r3 heq
    rw [h] at heq
    injection heq with h2
    injection h2 with h3 h4
    cases h4
  · rename_i r3 heq
    rw [h] at heq
    injection heq with h2
    injection h2 with h3 h4
    rw [h3]

/-- The run loop terminates successfully on every race with a nonempty track
or an empty roster: it returns a final state with the same turtle names and a
tick counter within the cap (relative to the entry count). -/
theorem runLoop_spec :
    ∀ (n : ℕ) (r : Race), MAX_TICKS + 1 - r.tick_count ≤ n →
      (r.track ≠ [] ∨ r.turtles = []) →
      ∃ r2, r.runLoop = some r2 ∧
        r2.turtles.map Turtle.name = r.turtles.map Turtle.name ∧
        r2.tick_count ≤ max (r.tick_count + 1) MAX_TICKS := by
  intro n
  induction n with
  | zero =>
    intro r hn hc
    obtain ⟨r2, d, htick, -, -, hcount, hnames, hd⟩ := tick_some r hc
    cases d with
    | true =>
      exact ⟨r2, runLoop_tick_done r r2 htick, hnames, by
        rw [hcount]; exact le_max_left _ _⟩
    | false =>
      have := hd rfl
      unfold MAX_TICKS at hn this
      omega
  | succ n ih =>
    intro r hn hc
    obtain ⟨r2, d, htick, htrack, -, hcount, hnames, hd⟩ := tick_some r hc
    cases d with
    | true =>
      exact ⟨r2, runLoop_tick_done r r2 htick, hnames, by
        rw [hcount]; exact le_max_left _ _⟩
    | false =>
      have hlt : r2.tick_count < MAX_TICKS := hd rfl
      have hc2 : r2.track ≠ [] ∨ r2.turtles = [] := by
        rcases hc with hc | hc
        · left; rw [htrack]; exact hc
        · right
          rw [hc] at hnames
          simpa using hnames
      have hn2 : MAX_TICKS + 1 - r2.tick_count ≤ n := by omega
      obtain ⟨r3, hloop, hnames3, hbound⟩ := ih r2 hn2 hc2
      refine ⟨r3, ?_, by rw [hnames3, hnames], ?_⟩
      · rw [runLoop_tick_continue r r2 htick]
        exact hloop
      · have hmax : max (r2.tick_count + 1) MAX_TICKS = MAX_TICKS :=
          Nat.max_eq_right (by omega)
        rw [hmax] at hbound
        exact le_trans hbound (le_max_right _ _)

/-- The Rust `max_by` fold: starting from an accumulator, the result is an
element of the accumulated list that is maximal, and everything after its
position is strictly smaller (so ties go to the LAST maximal element). -/
theorem maxByLast_split :
    ∀ (xs : List Turtle) (acc : Turtle),
      ∃ w l1 l2,
        xs.foldl
          (fun acc t =>
            match acc with
            | none => some t
            | some a => if a.race_distance > t.race_distance then some a else some t)
          (some acc) = some w ∧
        acc :: xs = l1 ++ w :: l2 ∧
        (∀ y ∈ acc :: xs, y.race_distance ≤ w.race_distance) ∧
        (∀ y ∈ l2, y.race_distance < w.race_distance) := by
  intro xs
  induction xs with
  | nil =>
    intro acc
    exact ⟨acc, [], [], rfl, rfl, by simp, by simp⟩
  | cons x xs ih =>
    intro acc
    by_cases hgt : acc.race_distance > x.race_distance
    · obtain ⟨w, l1, l2, hfold, hsplit, hmax, hlast⟩ := ih acc
      have hfold2 : (x :: xs).foldl
          (fun acc t =>
            match acc with
            | none => some t
            | some a => if a.race_distance > t.race_distance then some a else some t)
          (some acc) = some w := by
        simp only [List.foldl_cons]
        rw [if_pos hgt]
        exact hfold
      cases l1 with
      | nil =>
        simp only [List.nil_append, List.cons.injEq] at hsplit
        obtain ⟨hacc, hxs⟩ := hsplit
        refine ⟨w, [], x :: l2, hfold2, ?_, ?_, ?_⟩
        · simp [← hacc, ← hxs]
        · intro y hy
          rcases List.mem_cons.mp hy with hy | hy
          · rw [hy, ← hacc]
          · rcases List.mem_cons.mp hy with hy | hy
            · rw [hy]
              rw [← hacc]
              exact le_of_lt hgt
            · exact hmax y (List.mem_cons_of_mem _ hy)
        · intro y hy
          rcases List.mem_cons.mp hy with hy | hy
          · rw [hy, ← hacc]
            exact hgt
          · exact hlast y hy
      | cons a l1t =>
        simp only [List.cons_append, List.cons.injEq] at hsplit
        obtain ⟨hacc, hxs⟩ := hsplit
        refine ⟨w, acc :: x :: l1t, l2, hfold2, ?_, ?_, hlast⟩
        · simp [hxs]
        · intro y hy
          rcases List.mem_cons.mp hy with hy | hy
          · exact hmax y (by rw [hy]; exact List.mem_cons_self _ _)
          · rcases List.mem_cons.mp hy with hy | hy
            · have hacc_le : acc.race_distance ≤ w.race_distance :=
                hmax acc (List.mem_cons_self _ _)
              rw [hy]
              exact le_trans (le_of_lt hgt) hacc_le
            · exact hmax y (List.mem_cons_of_mem _ hy)
    · obtain ⟨w, l1, l2, hfold, hsplit, hmax, hlast⟩ := ih x
      have hfold2 : (x :: xs).foldl
          (fun acc t =>
            match acc with
            | none => some t
            | some a => if a.race_distance > t.race_distance then some a else some t)
          (some acc) = some w := by
        simp only [List.foldl_cons]
        rw [if_neg hgt]
        exact hfold
      refine ⟨w, acc :: l1, l2, hfold2, ?_, ?_, hlast⟩
      · simp [hsplit]
      · intro y hy
        rcases List.mem_cons.mp hy with hy | hy
        · have hx_le : x.race_distance ≤ w.race_distance :=
            hmax x (List.mem_cons_self _ _)
          rw [hy]
          exact le_trans (le_of_not_lt hgt) hx_le
        · exact hmax y (by rw [hsplit] at hy; rw [hsplit]; exact hy)

/-- The winner fold of `Race::run` returns, for a nonempty roster, the last
maximal-distance turtle: a member past which every later entry is strictly
slower and below or at which every entry lies. -/
theorem maxByLast_spec (l : List Turtle) (h : l ≠ []) :
    ∃ w l1 l2, maxByLast l = some w ∧ l = l1 ++ w :: l2 ∧
      (∀ y ∈ l, y.race_distance ≤ w.race_distance) ∧
      (∀ y ∈ l2, y.race_distance < w.race_distance) := by
  cases l with
  | nil => exact absurd rfl h
  | cons x xs =>
    obtain ⟨w, l1, l2, hfold, hsplit, hmax, hlast⟩ := maxByLast_split xs x
    exact ⟨w, l1, l2, hfold, hsplit, hmax, hlast⟩

/-- Resetting the roster preserves its names. -/
theorem reset_names (l : List Turtle) :
    (l.map Turtle.reset_for_race).map Turtle.name = l.map Turtle.name := by
  simp only [List.map_map]
  apply List.map_congr_left
  intro t _
  rfl

/-- A race built with a positive track length has a nonempty track: it holds
`ceil(length / segment_size) ≥ 1` segments. -/
theorem new_track_nonempty (len : ℚ) (rolls : ℕ → ℚ) (h : 0 < len) :
    (Race.new len rolls).track ≠ [] := by
  unfold Race.new Terrain.generate_track
  simp only [ne_eq, List.map_eq_nil_iff, List.range_eq_nil]
  have hpos : (0 : ℚ) < len / SEGMENT_SIZE := by
    apply div_pos h
    norm_num [SEGMENT_SIZE]
  have hceil : 0 < ⌈len / SEGMENT_SIZE⌉ := Int.ceil_pos.mpr hpos
  omega

/-- A tick on a nonempty track never panics. -/
theorem tick_isSome (r : Race) (h : r.track ≠ []) : r.tick.isSome = true := by
  obtain ⟨r2, d, htick, -⟩ := tick_some r (Or.inl h)
  rw [htick]
  rfl

/-- With an empty track the terrain collection panics on the first turtle. -/
theorem collectTerrains_none (r : Race) (h : r.track = []) (t : Turtle)
    (ts : List Turtle) : collectTerrains r (t :: ts) = none := by
  unfold collectTerrains Race.get_terrain_at
  rw [h]

/-- With an empty track the terrain collection panics on any nonempty
roster. -/
theorem collectTerrains_none_nonempty (r : Race) (h : r.track = []) :
    ∀ ts : List Turtle, ts ≠ [] → collectTerrains r ts = none := by
  intro ts hts
  cases ts with
  | nil => exact absurd rfl hts
  | cons a l => exact collectTerrains_none r h a l

/-- With an empty track and a nonempty roster, `tick()` panics. -/
theorem tick_none_of_empty_track (r : Race) (h : r.track = []) (h2 : r.turtles ≠ []) :
    r.tick = none := by
  unfold Race.tick
  rw [collectTerrains_none_nonempty { r with tick_count := r.tick_count + 1 }
    h r.turtles h2]

/-- With an empty track and a nonempty roster, `run()` panics on its first
tick. -/
theorem run_none_of_empty_track (r : Race) (h : r.track = []) (h2 : r.turtles ≠ []) :
    r.run = none := by
  have h2r : ({ r with
      turtles := r.turtles.map Turtle.reset_for_race
      tick_count := 0 } : Race).turtles ≠ [] := by
    show r.turtles.map Turtle.reset_for_race ≠ []
    simpa using h2
  have htick : ({ r with
      turtles := r.turtles.map Turtle.reset_for_race
      tick_count := 0 } : Race).tick = none :=
    tick_none_of_empty_track _ h h2r
  unfold Race.run
  rw [runLoop_tick_none _ htick]
  rfl

/-- The core of `Race::run` on a well-formed race: the loop returns, within
the tick cap, a final state whose winner is selected by the `max_by` fold. -/
theorem run_spec (r : Race) (hc : r.track ≠ [] ∨ r.turtles = []) :
    ∃ r2, r.run = some (((maxByLast r2.turtles).map Turtle.name).getD "DRAW", r2) ∧
      r2.tick_count ≤ MAX_TICKS ∧
      r2.turtles.map Turtle.name = r.turtles.map Turtle.name := by
  have hc1 : ({ r with
      turtles := r.turtles.map Turtle.reset_for_race
      tick_count := 0 } : Race).track ≠ [] ∨
      ({ r with
        turtles := r.turtles.map Turtle.reset_for_race
        tick_count := 0 } : Race).turtles = [] := by
    rcases hc with hc | hc
    · left; exact hc
    · right
      show r.turtles.map Turtle.reset_for_race = []
      rw [hc]
      rfl
  obtain ⟨r2, hloop, hnames, hbound⟩ :=
    runLoop_spec (MAX_TICKS + 1)
      { r with
        turtles := r.turtles.map Turtle.reset_for_race
        tick_count := 0 }
      (by omega) hc1
  refine ⟨r2, ?_, ?_, ?_⟩
  · unfold Race.run
    rw [hloop]
    rfl
  · have hmax : max (0 + 1) MAX_TICKS = MAX_TICKS := by
      unfold MAX_TICKS
      omega
    rw [show ({ r with
        turtles := r.turtles.map Turtle.reset_for_race
        tick_count := 0 } : Race).tick_count = 0 from rfl, hmax] at hbound
    exact hbound
  · rw [hnames]
    exact reset_names r.turtles

/-- C6 counterexample: a `Race` constructed with `track_length = 0` has an
empty track, and with a nonempty roster `tick()` hits the out-of-bounds
terrain lookup (the Rust `track.len() - 1` underflow / empty-vector index),
modelled by `none`; so the claim does not hold for every constructor
argument. -/
theorem C6_terrain_lookup_cex :
    raceNoTrackB.turtles ≠ [] ∧ raceNoTrackB.tick = none := by
  have htr : raceNoTrackB.track = [] := by
    simp [raceNoTrackB, Race.new, Race.add_turtle, Terrain.generate_track,
      SEGMENT_SIZE]
  have hts : raceNoTrackB.turtles = [turtleB] := by
    simp [raceNoTrackB, Race.new, Race.add_turtle]
  refine ⟨by rw [hts]; simp, ?_⟩
  exact tick_none_of_empty_track raceNoTrackB htr (by rw [hts]; simp)

/-- C6 as amended: on every race whose track is nonempty — which
`Race::new` guarantees exactly when `track_length > 0` — every terrain
lookup is in bounds (the segment index is clamped to the last segment) and
`tick()` never panics, for any roster. -/
theorem C6_terrain_lookup :
    (∀ (len : ℚ) (rolls : ℕ → ℚ), 0 < len → (Race.new len rolls).track ≠ []) ∧
    (∀ (r : Race) (dist : ℚ), r.track ≠ [] → (r.get_terrain_at dist).isSome = true) ∧
    (∀ r : Race, r.track ≠ [] → r.tick.isSome = true) :=
  ⟨fun len rolls h => new_track_nonempty len rolls h,
   fun r dist h => get_terrain_at_isSome r h dist,
   fun r h => tick_isSome r h⟩

/-- Witness for C6: the one-segment race ticks without panicking. -/
theorem C6_terrain_lookup_witness : raceOneSeg.tick.isSome = true :=
  C6_terrain_lookup.2.2 raceOneSeg (new_track_nonempty 40 (fun _ => 0) (by norm_num))

/-- C4 counterexample: with `track_length = 0` and a nonempty roster, `run()`
terminates by a panic (`none`) on the first tick instead of returning a
roster member's name or the empty-roster sentinel. -/
theorem C4_run_terminates_cex :
    raceNoTrack.run = none ∧ raceNoTrack.turtles ≠ [] := by
  have htr : raceNoTrack.track = [] := by
    simp [raceNoTrack, Race.new, Race.add_turtle, Terrain.generate_track,
      SEGMENT_SIZE]
  have hts : raceNoTrack.turtles ≠ [] := by
    simp [raceNoTrack, Race.new, Race.add_turtle]
  exact ⟨run_none_of_empty_track _ htr hts, hts⟩

/-- C4 as amended: on every race with a nonempty track (guaranteed by the
constructor for `track_length > 0`) or an empty roster, `run()` terminates
with its tick counter at most the hard cap of 5000 and returns either a
roster member's name or the `"DRAW"` sentinel for an empty roster; with an
empty track and a nonempty roster it instead terminates by a panic on the
first tick. -/
theorem C4_run_terminates (r : Race) (hc : r.track ≠ [] ∨ r.turtles = []) :
    ∃ w r2, r.run = some (w, r2) ∧ r2.tick_count ≤ MAX_TICKS ∧
      (w ∈ r.turtles.map Turtle.name ∨ (r.turtles = [] ∧ w = "DRAW")) := by
  obtain ⟨r2, hrun, hbound, hnames⟩ := run_spec r hc
  refine ⟨_, r2, hrun, hbound, ?_⟩
  by_cases hts : r2.turtles = []
  · right
    have hmap : r.turtles.map Turtle.name = [] := by
      rw [← hnames, hts, List.map_nil]
    refine ⟨List.map_eq_nil_iff.mp hmap, ?_⟩
    rw [hts]
    rfl
  · left
    obtain ⟨w2, l1, l2, hfoldw, hsplit, -, -⟩ := maxByLast_spec r2.turtles hts
    have hw : ((maxByLast r2.turtles).map Turtle.name).getD "DRAW" = w2.name := by
      rw [hfoldw]
      rfl
    rw [hw, ← hnames]
    apply List.mem_map_of_mem
    rw [hsplit]
    exact List.mem_append_right l1 (List.mem_cons_self _ _)

/-- Witness for C4: the one-segment race returns a winner within the cap. -/
theorem C4_run_terminates_witness :
    ∃ w r2, raceOneSeg.run = some (w, r2) ∧ r2.tick_count ≤ MAX_TICKS ∧
      (w ∈ raceOneSeg.turtles.map Turtle.name ∨
        (raceOneSeg.turtles = [] ∧ w = "DRAW")) :=
  C4_run_terminates raceOneSeg
    (Or.inl (new_track_nonempty 40 (fun _ => 0) (by norm_num)))

/-- C1 as amended: `run()` returns the name of a character whose final
`race_distance` is maximal over the roster, but ties are broken by the LAST
occurrence in roster order (Rust `max_by` keeps the later of two equal
elements), not the first. -/
theorem C1_run_winner_last_tie (r : Race) (htrack : r.track ≠ [])
    (hros : r.turtles ≠ []) :
    ∃ w r2 t l1 l2, r.run = some (w, r2) ∧ w = t.name ∧
      r2.turtles = l1 ++ t :: l2 ∧
      (∀ y ∈ r2.turtles, y.race_distance ≤ t.race_distance) ∧
      (∀ y ∈ l2, y.race_distance < t.race_distance) := by
  obtain ⟨r2, hrun, -, hnames⟩ := run_spec r (Or.inl htrack)
  have hne : r2.turtles ≠ [] := by
    intro hcon
    rw [hcon] at hnames
    have hmap : r.turtles.map Turtle.name = [] := hnames.symm
    exact hros (List.map_eq_nil_iff.mp hmap)
  obtain ⟨t, l1, l2, hfold, hsplit, hmax, hlast⟩ := maxByLast_spec r2.turtles hne
  have hw : ((maxByLast r2.turtles).map Turtle.name).getD "DRAW" = t.name := by
    rw [hfold]
    rfl
  exact ⟨_, r2, t, l1, l2, hrun, hw, hsplit, hmax, hlast⟩

/-- Witness for C1: the amended statement instantiated on the tie race. -/
theorem C1_run_winner_last_tie_witness :
    ∃ w r2 t l1 l2, raceTie.run = some (w, r2) ∧ w = t.name ∧
      r2.turtles = l1 ++ t :: l2 ∧
      (∀ y ∈ r2.turtles, y.race_distance ≤ t.race_distance) ∧
      (∀ y ∈ l2, y.race_distance < t.race_distance) :=
  C1_run_winner_last_tie raceTie (by simp [raceTie]) (by simp [raceTie])

/-- C1 counterexample: in `raceTie` both identical turtles finish the single
tick at distance 5 exactly, yet `run()` returns "B", the LAST roster member,
while the spec's first-occurrence selection (`firstMaxByDistance`) picks "A":
run's tie-breaking is by last occurrence in roster order, not first. -/
theorem C1_run_winner_cex :
    raceTie.run = some ("B", raceTieFinal) ∧
    (firstMaxByDistance raceTieFinal.turtles).map Turtle.name = some "A" ∧
    ("B" : String) ≠ "A" := by
  have htick : raceTie.tick = some (raceTieFinal, true) := by
    unfold Race.tick
    have hcol : collectTerrains { raceTie with tick_count := raceTie.tick_count + 1 }
        raceTie.turtles = some [Terrain.normal, Terrain.normal] := by
      norm_num [collectTerrains, Race.get_terrain_at, raceTie, turtleA, turtleB,
        SEGMENT_SIZE]
    rw [hcol]
    norm_num [raceTie, raceTieFinal, updateTurtles, tickTurtle, Turtle.update_physics,
      turtleA, turtleB, turtleAfin, turtleBfin, exampleStats, Terrain.normal,
      TERRAIN_DIFFICULTY, MAX_TICKS]
  have hres : ({ raceTie with
      turtles := raceTie.turtles.map Turtle.reset_for_race
      tick_count := 0 } : Race) = raceTie := by
    norm_num [raceTie, Turtle.reset_for_race, turtleA, turtleB, exampleStats]
  have hloop : raceTie.runLoop = some raceTieFinal := runLoop_tick_done _ _ htick
  refine ⟨?_, ?_, by simp⟩
  · unfold Race.run
    rw [hres, hloop]
    norm_num [maxByLast, raceTieFinal, turtleAfin, turtleBfin, exampleStats]
  · norm_num [firstMaxByDistance, raceTieFinal, turtleAfin, turtleBfin, exampleStats]

/-- Characterization of the binary logarithm floor used by `roundF32`. -/
theorem int_log2_eq (q : ℚ) (e : ℤ) (h1 : (2 : ℚ) ^ e ≤ q) (h2 : q < 2 ^ (e + 1)) :
    Int.log 2 q = e := by
  have h0 : 0 < q := lt_of_lt_of_le (zpow_pos (by norm_num) e) h1
  have ha : e ≤ Int.log 2 q :=
    (Int.zpow_le_iff_le_log (by norm_num) h0).mp (by exact_mod_cast h1)
  have hb : Int.log 2 q < e + 1 := by
    rcases lt_or_le (Int.log 2 q) (e + 1) with h | h
    · exact h
    · exfalso
      have hle := (Int.zpow_le_iff_le_log (by norm_num) h0).mpr h
      push_cast at hle
      linarith
  omega

/-- Evaluation of the half-even rounding below the midpoint. -/
theorem roundHalfEven_eq_of_lt (q : ℚ) (n : ℤ) (h1 : (n : ℚ) ≤ q)
    (h2 : q < (n : ℚ) + 1/2) : roundHalfEven q = n := by
  have hf : ⌊q⌋ = n := Int.floor_eq_iff.mpr ⟨h1, by push_cast; linarith⟩
  unfold roundHalfEven
  rw [hf, if_pos (by push_cast; linarith)]

/-- Evaluation of the half-even rounding above the midpoint. -/
theorem roundHalfEven_eq_of_gt (q : ℚ) (n : ℤ) (h1 : (n : ℚ) + 1/2 < q)
    (h2 : q < (n : ℚ) + 1) : roundHalfEven q = n + 1 := by
  have hf : ⌊q⌋ = n := Int.floor_eq_iff.mpr ⟨by linarith, by push_cast; linarith⟩
  unfold roundHalfEven
  rw [hf, if_neg (by push_cast; linarith), if_pos (by push_cast; linarith)]

/-- Evaluation of the half-even rounding at a midpoint with even floor. -/
theorem roundHalfEven_eq_of_tie_even (q : ℚ) (n : ℤ) (h1 : q = (n : ℚ) + 1/2)
    (h2 : n % 2 = 0) : roundHalfEven q = n := by
  have hf : ⌊q⌋ = n := Int.floor_eq_iff.mpr
    ⟨by rw [h1]; linarith, by rw [h1]; push_cast; linarith⟩
  unfold roundHalfEven
  rw [hf, if_neg (by rw [h1]; push_cast; linarith),
    if_neg (by rw [h1]; push_cast; linarith), if_pos h2]

/-- Evaluation scheme for one binary32 rounding: exhibit the binade exponent
and the rounded significand. -/
theorem roundF32_eq (q v : ℚ) (e m : ℤ) (hq : q ≠ 0)
    (h1 : (2 : ℚ) ^ e ≤ |q|) (h2 : |q| < 2 ^ (e + 1))
    (hm : roundHalfEven (q / 2 ^ (e - 23)) = m)
    (hv : (m : ℚ) * 2 ^ (e - 23) = v) : roundF32 q = v := by
  have hlog : Int.log 2 |q| = e := int_log2_eq |q| e h1 h2
  unfold roundF32
  rw [if_neg hq, hlog, hm, hv]

/-- C3 counterexample: under the source's `f32` arithmetic, blended
self-inheritance does not reproduce a complete valid trait set exactly.
With the reachable bias draw `biasCex` (the `f32` nearest 0.3000297248, well
inside `[0.3, 0.7]`) and the byte channel 93, the three roundings of
`93·(1−bias) + 93·bias` land at 92.99999237060547 and the truncating
`as u8` cast returns 92, so `inherit_blended(t, t)` changes
`shell_base_color` from `(93, 93, 93)`. -/
theorem C3_inherit_self_cex :
    completeValidFor geneDefinitionsNew tCex ∧
    (3/10 ≤ biasCex ∧ biasCex ≤ 7/10) ∧
    inherit_blended32 geneDefinitionsNew tCex tCex (fun _ => true) (fun _ => biasCex)
        "shell_base_color" ≠ tCex "shell_base_color" := by
  have hr1 : roundF32 (1 - biasCex) = 183493 / 262144 :=
    roundF32_eq _ _ (-1) 11743552 (by norm_num [biasCex])
      (by rw [abs_of_pos (by norm_num [biasCex])]; norm_num [biasCex])
      (by rw [abs_of_pos (by norm_num [biasCex])]; norm_num [biasCex])
      (roundHalfEven_eq_of_tie_even _ 11743552 (by norm_num [biasCex]) (by decide))
      (by norm_num)
  have hr2 : roundF32 ((93 : ℚ) * (183493 / 262144)) = 1066553 / 16384 :=
    roundF32_eq _ _ 6 8532424 (by norm_num)
      (by rw [abs_of_pos (by norm_num)]; norm_num)
      (by rw [abs_of_pos (by norm_num)]; norm_num)
      (roundHalfEven_eq_of_tie_even _ 8532424 (by norm_num) (by decide))
      (by norm_num)
  have hr3 : roundF32 ((93 : ℚ) * biasCex) = 14629085 / 524288 :=
    roundF32_eq _ _ 4 14629085 (by norm_num [biasCex])
      (by rw [abs_of_pos (by norm_num [biasCex])]; norm_num [biasCex])
      (by rw [abs_of_pos (by norm_num [biasCex])]; norm_num [biasCex])
      (by
        have hg := roundHalfEven_eq_of_gt ((93 : ℚ) * biasCex / 2 ^ ((4 : ℤ) - 23))
          14629084 (by norm_num [biasCex]) (by norm_num [biasCex])
        rw [hg]
        decide)
      (by norm_num)
  have hr4 : roundF32 ((1066553 : ℚ) / 16384 + 14629085 / 524288) = 12189695 / 131072 :=
    roundF32_eq _ _ 6 12189695 (by norm_num)
      (by rw [abs_of_pos (by norm_num)]; norm_num)
      (by rw [abs_of_pos (by norm_num)]; norm_num)
      (roundHalfEven_eq_of_lt _ 12189695 (by norm_num) (by norm_num))
      (by norm_num)
  have hclamp : min (max biasCex 0) 1 = biasCex := by
    rw [max_eq_left (by norm_num [biasCex]), min_eq_left (by norm_num [biasCex])]
  have hcast : ((colorCex.r : ℕ) : ℚ) = 93 := by norm_num [colorCex]
  have hbr : (Rgb.blend32 colorCex colorCex biasCex).r = 92 := by
    show ratToU8 (roundF32 (roundF32 ((colorCex.r : ℚ)
        * roundF32 (1 - min (max biasCex 0) 1))
      + roundF32 ((colorCex.r : ℚ) * min (max biasCex 0) 1))) = 92
    rw [hclamp, hcast, hr1, hr2, hr3, hr4]
    unfold ratToU8
    rw [if_neg (by norm_num)]
    rw [show ⌊(12189695 : ℚ) / 131072⌋ = (92 : ℤ) from
      Int.floor_eq_iff.mpr (by constructor <;> norm_num)]
    rfl
  refine ⟨⟨?_, ?_⟩, ⟨by norm_num [biasCex], by norm_num [biasCex]⟩, ?_⟩
  · intro nd hnd
    fin_cases hnd <;>
      simp [geneOk, tCex, defaultsFun, geneDefinitionsNew, validValue, colorCex,
        GeneDefinition.continuous, GeneDefinition.rgb, GeneDefinition.discrete,
        List.lookup] <;>
      norm_num
  · intro name h
    by_cases hn : name = "shell_base_color"
    · rw [hn] at h
      simp [geneDefinitionsNew, List.lookup] at h
    · simp [tCex, hn, defaultsFun, h]
  · intro hcon
    have heval : inherit_blended32 geneDefinitionsNew tCex tCex (fun _ => true)
        (fun _ => biasCex) "shell_base_color"
        = some (GeneValue.Rgb (Rgb.blend32 colorCex colorCex biasCex)) := rfl
    have htv : tCex "shell_base_color" = some (GeneValue.Rgb colorCex) := rfl
    rw [heval, htv] at hcon
    have hrgb : Rgb.blend32 colorCex colorCex biasCex = colorCex := by
      simpa using hcon
    have hchan := congrArg Rgb.r hrgb
    rw [hbr] at hchan
    simp [colorCex] at hchan
